import Mathlib

/-!
Verification of the helper functions defined in
`CNN/AI ML LatAm Conference 2019 - CNN HandsOn.ipynb`.

The notebook's numpy arrays are embedded as nested lists of integers
(pixel values and integer kernels), and its floating-point split ratio as
a rational number.  Fancy numpy operations (`np.pad`, slicing, fancy
indexing, `astype('uint8')`) are spelled out as the list operations they
perform elementwise.
-/

namespace HandsOn

/-- A pixel: the list of its channel values (axis 2 of a numpy image). -/
abbrev Pix := List Int

/-- A 2-D integer matrix: a grayscale image or a convolution kernel. -/
abbrev Mat := List (List Int)

/-- A 3-D image: height × width × channels, as nested lists. -/
abbrev Img3 := List (List Pix)

/-- Entry `m[i][j]` of a 2-D matrix, defaulting to `0` out of bounds. -/
def get2 (m : Mat) (i j : Nat) : Int := (m.getD i []).getD j 0

/-- Entry `img[i][j][k]` of a 3-D image, defaulting to `0` out of bounds. -/
def get3 (img : Img3) (i j k : Nat) : Int := ((img.getD i []).getD j []).getD k 0

/-- `shape[1]` of a 2-D matrix (width of its first row). -/
def cols2 (m : Mat) : Nat := (m.headD []).length

/-- `shape[1]` of a 3-D image (width of its first row). -/
def cols3 (img : Img3) : Nat := (img.headD []).length

/-- `shape[2]` of a 3-D image (channel count of its first pixel). -/
def chans (img : Img3) : Nat := ((img.headD []).headD []).length

/-- Rectangularity of a 2-D matrix: every row has the width of the first. -/
def WF2 (m : Mat) : Prop := ∀ r ∈ m, r.length = cols2 m

/-- Well-formedness of a 3-D image: every row has the width of the first
row and every pixel has the channel count of the first pixel. -/
def WF3 (img : Img3) : Prop :=
  (∀ r ∈ img, r.length = cols3 img) ∧ ∀ r ∈ img, ∀ p ∈ r, p.length = chans img

instance (m : Mat) : Decidable (WF2 m) := by unfold WF2; infer_instance

instance (img : Img3) : Decidable (WF3 img) := by unfold WF3; infer_instance

/-! ### one_hot

Source: `def one_hot(y): return np.eye(int(np.max(y)) + 1)[y.astype('int')]`.
Labels are nonnegative integers, so they are embedded as `Nat`. -/

/-- `np.max` on a vector of nonnegative integers (`0` on the empty vector,
where numpy would raise instead). -/
def npMax (y : List Nat) : Nat := y.foldl max 0

/-- Row `j` of `np.eye n`: `1` at column `j`, `0` elsewhere. -/
def eyeRow (n j : Nat) : List Nat :=
  (List.range n).map (fun c => if c = j then 1 else 0)

/-- `one_hot(y) = np.eye(int(np.max(y)) + 1)[y.astype('int')]`: each label is
replaced by the corresponding row of the identity matrix. -/
def one_hot (y : List Nat) : List (List Nat) :=
  y.map (fun v => eyeRow (npMax y + 1) v)

/-! ### train_test_split

Source:
```
def train_test_split(X, y, val_split=0.2):
    index = int(X.shape[0] * (1 - val_split))
    return X[:index], y[:index], X[index:], y[index:]
```
The float ratio is embedded as a rational; Python's `int()` truncates
toward zero. -/

/-- Python `int()` on a rational: truncation toward zero. -/
def pyInt (q : ℚ) : Int := if 0 ≤ q then ⌊q⌋ else -⌊-q⌋

/-- `train_test_split`: cut both arrays at `int(len(X) * (1 - val_split))`. -/
def train_test_split {α β : Type} (X : List α) (y : List β) (val_split : ℚ) :
    List α × List β × List α × List β :=
  let index := (pyInt ((X.length : ℚ) * (1 - val_split))).toNat
  (X.take index, y.take index, X.drop index, y.drop index)

/-! ### shuffle

Source:
```
def shuffle(X, y):
    indices = np.arange(X.shape[0])
    np.random.shuffle(indices)
    return X[indices], y[indices]
```
`np.random.shuffle` produces some permutation of `arange(len(X))`; the
embedding takes that permuted index vector as an explicit argument, and
`X[indices]` (numpy fancy indexing) becomes a map over it. -/

/-- `shuffle` after `np.random.shuffle` has produced the permuted index
vector `indices`: fancy indexing of both arrays by `indices`. -/
def shuffle {α β : Type} (dx : α) (dy : β) (indices : List Nat)
    (X : List α) (y : List β) : List α × List β :=
  (indices.map (fun i => X.getD i dx), indices.map (fun i => y.getD i dy))

/-! ### vectorize_sequences

Source:
```
def vectorize_sequences(sequences, dimension=10000):
    results = np.zeros((len(sequences), dimension))
    for i, sequence in enumerate(sequences):
        results[i, sequence] = 1.
    return results
```
The 0/1 float entries are embedded as integers. -/

/-- `results[i, sequence] = 1.`: set position `j` to `1` for each `j` in the
index list (numpy fancy-index assignment on one row). -/
def setOnes (row : List Int) (idxs : List Nat) : List Int :=
  idxs.foldl (fun r j => r.set j 1) row

/-- `vectorize_sequences`: one row of length `dimension` per sequence,
starting from zeros and setting the listed word indices to `1`. -/
def vectorize_sequences (sequences : List (List Nat)) (dimension : Nat) :
    List (List Int) :=
  sequences.map (fun s => setOnes (List.replicate dimension 0) s)

/-! ### pad_img

Source:
```
def pad_img(img, kernel):
    pad_height = (kernel.shape[0] - 1) // 2
    pad_width = (kernel.shape[1] - 1) // 2
    if len(img.shape) == 2:
        return np.pad(img, ((pad_height, pad_height),
                            (pad_width, pad_width)), 'constant')
    return np.pad(img, ((pad_height, pad_height),
                        (pad_width, pad_width),
                        (0, 0)), 'constant')
```
`np.pad` with `'constant'` adds zero rows above/below and zero entries on
each side of every row; the 3-D branch adds nothing along axis 2.
The 2-D and 3-D branches of the Python function become two Lean
definitions. -/

/-- The 2-D branch of `pad_img`. -/
def pad_img2 (img : Mat) (kernel : Mat) : Mat :=
  let ph := (kernel.length - 1) / 2
  let pw := (cols2 kernel - 1) / 2
  List.replicate ph (List.replicate (cols2 img + 2 * pw) 0)
    ++ (img.map (fun r => List.replicate pw 0 ++ (r ++ List.replicate pw 0))
      ++ List.replicate ph (List.replicate (cols2 img + 2 * pw) 0))

/-- The 3-D branch of `pad_img`: axis 0 and axis 1 are padded with zero
pixels of the image's channel count, axis 2 gets `(0, 0)` padding. -/
def pad_img3 (img : Img3) (kernel : Mat) : Img3 :=
  let ph := (kernel.length - 1) / 2
  let pw := (cols2 kernel - 1) / 2
  let zpix : Pix := List.replicate (chans img) 0
  List.replicate ph (List.replicate (cols3 img + 2 * pw) zpix)
    ++ (img.map (fun r => List.replicate pw zpix ++ (r ++ List.replicate pw zpix))
      ++ List.replicate ph (List.replicate (cols3 img + 2 * pw) zpix))

/-! ### convolve2D

Source:
```
def convolve2D(img, kernel):
    is_gray_scale = len(img.shape) == 2
    if is_gray_scale:
        img = np.expand_dims(img, axis=2)
    img = pad_img(img, kernel)
    height, width = img.shape[:2]
    new_img = []
    for i in range(height - kernel.shape[0] + 1):
        row = []
        for j in range(width - kernel.shape[1] + 1):
            channels = []
            for k in range(img.shape[2]):
                slice = img[i:i+kernel.shape[0], j:j+kernel.shape[1], k]
                channels.append(np.expand_dims(np.sum(slice * kernel, keepdims=True), axis=0))
            row.append(np.concatenate(channels, axis=2))
        new_img.append(np.concatenate(row, axis=1))
    res = np.maximum(np.concatenate(new_img, axis=0), 0).astype('uint8')
    if is_gray_scale:
        return res[:, :, 0]
    return res
```
Python `range(height - kh + 1)` is over machine integers and is empty when
the bound is not positive, so those bounds are computed in `Int` and
clipped with `Int.toNat`.  The loop-and-concatenate assembly builds the
nested list whose `(i, j, k)` entry is `np.sum(slice * kernel)`; assembling
it as nested `map`s over those index ranges reproduces it.  `np.maximum`
and `astype` are applied elementwise on the assembled array, exactly as in
the source. -/

/-- `np.sum(img[i:i+kh, j:j+kw, k] * kernel)`: the elementwise product-sum
of the kernel against the window of `p` starting at `(i, j)` in
channel `k`. -/
def windowSum (p : Img3) (kernel : Mat) (i j k : Nat) : Int :=
  ((List.range kernel.length).map (fun a =>
    ((List.range (cols2 kernel)).map (fun b =>
      get3 p (i + a) (j + b) k * get2 kernel a b)).sum)).sum

/-- `range(height - kernel.shape[0] + 1)` bound of the `i` loop. -/
def outH (p : Img3) (kernel : Mat) : Nat :=
  ((p.length : Int) - kernel.length + 1).toNat

/-- `range(width - kernel.shape[1] + 1)` bound of the `j` loop. -/
def outW (p : Img3) (kernel : Mat) : Nat :=
  ((cols3 p : Int) - cols2 kernel + 1).toNat

/-- `np.maximum(·, 0)`, elementwise on one value. -/
def npMaximum0 (x : Int) : Int := max x 0

/-- `astype('uint8')` on one integer value: reduction modulo `2^8`. -/
def uint8cast (x : Int) : Int := x % 256

/-- `convolve2D` on a 3-D (height × width × channels) image: pad, assemble
the window sums over the three loop ranges, then clamp at zero and cast to
8-bit elementwise. -/
def convolve2D (img : Img3) (kernel : Mat) : Img3 :=
  let p := pad_img3 img kernel
  let new_img : Img3 :=
    (List.range (outH p kernel)).map (fun i =>
      (List.range (outW p kernel)).map (fun j =>
        (List.range (chans p)).map (fun k => windowSum p kernel i j k)))
  new_img.map (fun r => r.map (fun px => px.map (fun x => uint8cast (npMaximum0 x))))

/-- `np.expand_dims(img, axis=2)` on a 2-D image: each value becomes a
one-channel pixel. -/
def expandDims2 (img : Mat) : Img3 := img.map (fun r => r.map (fun v => [v]))

/-- `convolve2D` on a 2-D (grayscale) image: expand to one channel, run the
3-D computation, then take `res[:, :, 0]`. -/
def convolve2D_gs (img : Mat) (kernel : Mat) : Mat :=
  (convolve2D (expandDims2 img) kernel).map (fun r => r.map (fun px => px.getD 0 0))

/-- The `'Sharpen'` kernel from `get_kernels()`. -/
def sharpenKernel : Mat := [[0, -1, 0], [-1, 5, -1], [0, -1, 0]]

/-! ### get_data_from_dir

Source:
```
def get_data_from_dir(path, size=[100, 100]):
    imgs = []
    labels = []
    labels_list = []
    files = os.listdir(path)
    for i, file in enumerate(files):
        img_names = os.listdir(os.path.join(path, file))
        labels.append(np.ones(len(img_names)) * i)
        labels_list.append(file)
        for img_name in img_names:
            with Image.open(os.path.join(path, file, img_name)) as img:
                imgs.append(np.asarray(img.resize(size)))
    imgs = np.asarray(imgs)
    return imgs, np.hstack(labels), labels_list
```
The filesystem is embedded as the listing it produces: a list of
(subdirectory name, images found inside) pairs in `os.listdir` order, with
images of an abstract type and `img.resize(size)` an abstract function on
them.  `np.hstack` of the per-class constant label blocks is the
concatenation of those blocks. -/

/-- `get_data_from_dir` over the directory listing `dirs`: images of every
class subdirectory in order (resized), one block `[i, …, i]` of labels per
subdirectory, and the subdirectory names in listing order. -/
def get_data_from_dir {α : Type} (resize : α → α) (dirs : List (String × List α)) :
    List α × List Nat × List String :=
  (dirs.flatMap (fun d => d.2.map resize),
   dirs.enum.flatMap (fun p => List.replicate p.2.2.length p.1),
   dirs.map (fun d => d.1))

/-- Start offset of class `i` in the flattened image/label lists: the total
image count of the preceding subdirectories. -/
def classOffset {α : Type} (dirs : List (String × List α)) (i : Nat) : Nat :=
  (((dirs.take i).map (fun d => d.2.length)).sum)

/-! ### organize_series

Source:
```
def organize_series(data, n_in=1, n_out=1, dropnan=True):
    n_vars = 1 if type(data) is list else data.shape[1]
    df = pd.DataFrame(data)
    cols, names = list(), list()
    for i in range(n_in, 0, -1):
        cols.append(df.shift(i))
        names += [('var%d(t-%d)' % (j+1, i)) for j in range(n_vars)]
    for i in range(0, n_out):
        cols.append(df.shift(-i))
        if i == 0:
            names += [('var%d(t)' % (j+1)) for j in range(n_vars)]
        else:
            names += [('var%d(t+%d)' % (j+1, i)) for j in range(n_vars)]
    agg = pd.concat(cols, axis=1)
    agg.columns = names
    if dropnan:
        agg.dropna(inplace=True)
    return agg
```
A data frame of `n` rows and `v` numeric columns is embedded as a list of
`n` rows of `v` rationals; a shifted frame holds `Option` entries, `none`
standing for the `NaN`s that `df.shift` introduces.  The embedding covers
the 2-D-array input, whose `n_vars` is `data.shape[1]`. -/

/-- `df.shift(s)`: row `t` of the result is row `t - s` of `df`, or a row
of `NaN`s when `t - s` falls outside the frame. -/
def dfShift (data : List (List ℚ)) (s : Int) : List (List (Option ℚ)) :=
  (List.range data.length).map (fun t : Nat =>
    if 0 ≤ (t : Int) - s ∧ (t : Int) - s < (data.length : Int) then
      (data.getD ((t : Int) - s).toNat []).map some
    else List.replicate (data.headD []).length none)

/-- `pd.concat(cols, axis=1)` on frames sharing the index `0, …, n-1`:
row `t` of the result concatenates row `t` of each frame. -/
def concatCols (cols : List (List (List (Option ℚ)))) (n : Nat) :
    List (List (Option ℚ)) :=
  (List.range n).map (fun t => cols.flatMap (fun df => df.getD t []))

/-- Column name `'var%d(t-%d)' % (j+1, i)` and its `t`/`t+i` variants. -/
def varName (j : Nat) (i : Int) : String :=
  if i > 0 then "var" ++ toString (j + 1) ++ "(t-" ++ toString i ++ ")"
  else if i = 0 then "var" ++ toString (j + 1) ++ "(t)"
  else "var" ++ toString (j + 1) ++ "(t+" ++ toString (-i) ++ ")"

/-- `organize_series` on a 2-D numeric table: the shifted copies
`df.shift(n_in), …, df.shift(1), df.shift(0), …, df.shift(-(n_out-1))`
concatenated column-wise with their generated names, rows containing a
`NaN` dropped when `dropnan` is set. -/
def organize_series (data : List (List ℚ)) (n_in n_out : Nat) (dropnan : Bool) :
    List (List (Option ℚ)) × List String :=
  let n_vars := (data.headD []).length
  let shifts : List Int :=
    ((List.range n_in).map (fun m => ((n_in - m : Nat) : Int)))
      ++ (List.range n_out).map (fun m => -(m : Int))
  let cols := shifts.map (fun s => dfShift data s)
  let names := shifts.flatMap (fun s => (List.range n_vars).map (fun j => varName j s))
  let agg := concatCols cols data.length
  let agg := if dropnan then agg.filter (fun row => row.all (fun x => x.isSome)) else agg
  (agg, names)

/-! ### General list lemmas shared by the proofs -/

lemma getD_map_range {α : Type} (f : Nat → α) {n i : Nat} (d : α) (h : i < n) :
    ((List.range n).map f).getD i d = f i := by
  rw [List.getD_eq_getElem?_getD, List.getElem?_map, List.getElem?_range h]
  rfl

lemma getD_map_lt {α β : Type} (f : α → β) {l : List α} {i : Nat} (d : α) (d' : β)
    (h : i < l.length) :
    (l.map f).getD i d' = f (l.getD i d) := by
  rw [List.getD_eq_getElem (l.map f) d' (by simpa using h),
    List.getElem_map, List.getD_eq_getElem l d h]

lemma getD_replicate {α : Type} (a d : α) {n i : Nat} (h : i < n) :
    (List.replicate n a).getD i d = a := by
  rw [List.getD_eq_getElem?_getD, List.getElem?_replicate]
  simp [h]

lemma le_foldl_max (l : List Nat) (a : Nat) : a ≤ l.foldl max a := by
  induction l generalizing a with
  | nil => exact le_refl a
  | cons b t ih => exact le_trans (le_max_left a b) (ih (max a b))

lemma mem_le_foldl_max (l : List Nat) (a v : Nat) (hv : v ∈ l) : v ≤ l.foldl max a := by
  induction l generalizing a with
  | nil => cases hv
  | cons b t ih =>
    rcases List.mem_cons.mp hv with h | h
    · subst h
      exact le_trans (le_max_right a v) (le_foldl_max t (max a v))
    · exact ih (max a b) h

/-! ### C4: one_hot -/

lemma getD_mem_of_lt {α : Type} (l : List α) (d : α) {i : Nat} (h : i < l.length) :
    l.getD i d ∈ l := by
  rw [List.getD_eq_getElem l d h]
  exact List.getElem_mem h

lemma eyeRow_sum (n j : Nat) : (eyeRow n j).sum = if j < n then 1 else 0 := by
  induction n with
  | zero => simp [eyeRow]
  | succ n ih =>
    unfold eyeRow at ih ⊢
    rw [List.range_succ, List.map_append, List.sum_append, ih]
    by_cases hj : j < n
    · have hne : n ≠ j := by omega
      simp [hj, hne, Nat.lt_succ_of_lt hj]
    · by_cases hj' : j = n
      · simp [hj, hj', Nat.lt_succ_iff]
      · have h1 : ¬ j < n + 1 := by omega
        have h2 : n ≠ j := fun h => hj' h.symm
        simp [hj, h1, h2]

/-- C4: `one_hot(y)` has one row per element of `y` and `max(y) + 1` columns;
row `i` is `1` at column `y[i]` and `0` at every other column, so every row
sums to `1`. -/
theorem one_hot_spec (y : List Nat) (hy : y ≠ []) :
    (one_hot y).length = y.length ∧
    ∀ i, i < y.length →
      ((one_hot y).getD i []).length = npMax y + 1 ∧
      (∀ c, c < npMax y + 1 →
        ((one_hot y).getD i []).getD c 0 = if c = y.getD i 0 then 1 else 0) ∧
      ((one_hot y).getD i []).sum = 1 := by
  constructor
  · simp [one_hot]
  · intro i hi
    have hrow : (one_hot y).getD i [] = eyeRow (npMax y + 1) (y.getD i 0) := by
      unfold one_hot
      exact getD_map_lt _ 0 [] hi
    have hmax : y.getD i 0 < npMax y + 1 :=
      Nat.lt_succ_of_le (mem_le_foldl_max y 0 _ (getD_mem_of_lt y 0 hi))
    refine ⟨?_, ?_, ?_⟩
    · rw [hrow]
      simp [eyeRow]
    · intro c hc
      rw [hrow]
      unfold eyeRow
      exact getD_map_range _ 0 hc
    · rw [hrow, eyeRow_sum]
      exact if_pos hmax

/-- Witness for `one_hot_spec` at `y = [2, 0, 1]`. -/
theorem one_hot_spec_witness :
    (one_hot [2, 0, 1]).length = 3 ∧
    ((one_hot [2, 0, 1]).getD 0 []).getD 2 0 = 1 ∧
    ((one_hot [2, 0, 1]).getD 0 []).getD 1 0 = 0 := by
  have h := one_hot_spec [2, 0, 1] (by decide)
  refine ⟨h.1, ?_, ?_⟩
  · rw [(h.2 0 (by decide)).2.1 2 (by decide)]
    decide
  · rw [(h.2 0 (by decide)).2.1 1 (by decide)]
    decide

/-! ### C5: train_test_split -/

/-- C5: `train_test_split(X, y, val_split)` returns
`(X[:k], y[:k], X[k:], y[k:])` with `k = ⌊len(X) * (1 - val_split)⌋`, and
concatenating the train part with the test part reproduces `X` and `y`. -/
theorem train_test_split_spec {α β : Type} (X : List α) (y : List β) (vs : ℚ)
    (hlen : X.length = y.length) (h0 : 0 ≤ vs) (h1 : vs ≤ 1) :
    train_test_split X y vs =
      (X.take (⌊(X.length : ℚ) * (1 - vs)⌋).toNat,
       y.take (⌊(X.length : ℚ) * (1 - vs)⌋).toNat,
       X.drop (⌊(X.length : ℚ) * (1 - vs)⌋).toNat,
       y.drop (⌊(X.length : ℚ) * (1 - vs)⌋).toNat) ∧
    (train_test_split X y vs).1 ++ (train_test_split X y vs).2.2.1 = X ∧
    (train_test_split X y vs).2.1 ++ (train_test_split X y vs).2.2.2 = y := by
  have hq : (0 : ℚ) ≤ (X.length : ℚ) * (1 - vs) :=
    mul_nonneg (Nat.cast_nonneg _) (by linarith)
  have hpy : pyInt ((X.length : ℚ) * (1 - vs)) = ⌊(X.length : ℚ) * (1 - vs)⌋ := by
    unfold pyInt
    simp [hq]
  refine ⟨?_, ?_, ?_⟩
  · unfold train_test_split
    rw [hpy]
  · unfold train_test_split
    simp
  · unfold train_test_split
    simp

/-- Witness for `train_test_split_spec` at concrete lists and ratio `1/5`. -/
theorem train_test_split_spec_witness :
    train_test_split [1, 2, 3, 4, 5] [10, 20, 30, 40, 50] (1/5 : ℚ) =
      ([1, 2, 3, 4], [10, 20, 30, 40], [5], [50]) := by
  have h := train_test_split_spec [1, 2, 3, 4, 5] [10, 20, 30, 40, 50] (1/5 : ℚ)
    (by decide) (by norm_num) (by norm_num)
  rw [h.1]
  norm_num
  decide

/-! ### C6: shuffle -/

lemma range_map_getD_zip {α β : Type} (dx : α) (dy : β) (X : List α) (y : List β)
    (h : y.length = X.length) :
    (List.range X.length).map (fun i => (X.getD i dx, y.getD i dy)) = X.zip y := by
  induction X generalizing y with
  | nil => simp
  | cons a t ih =>
    cases y with
    | nil => simp at h
    | cons b ty =>
      simp only [List.length_cons, List.range_succ_eq_map, List.map_cons, List.map_map]
      simp only [List.length_cons, Nat.succ.injEq] at h
      rw [List.zip_cons_cons]
      refine congrArg (List.cons (a, b)) ?_
      rw [← ih ty h]
      rfl

/-- C6: `shuffle(X, y)` applies one and the same index permutation to both
arrays: lengths are preserved and the multiset of `(X[i], y[i])` pairs is
preserved, so no example/label pairing is broken. -/
theorem shuffle_spec {α β : Type} (dx : α) (dy : β) (indices : List Nat)
    (X : List α) (y : List β) (hlen : y.length = X.length)
    (hperm : indices.Perm (List.range X.length)) :
    (shuffle dx dy indices X y).1.length = X.length ∧
    (shuffle dx dy indices X y).2.length = y.length ∧
    ((shuffle dx dy indices X y).1.zip (shuffle dx dy indices X y).2).Perm
      (X.zip y) := by
  have hil : indices.length = X.length := by
    rw [hperm.length_eq, List.length_range]
  refine ⟨?_, ?_, ?_⟩
  · simp [shuffle, hil]
  · simp [shuffle, hil, hlen]
  · unfold shuffle
    rw [List.zip_map']
    have h1 : (indices.map (fun i => (X.getD i dx, y.getD i dy))).Perm
        ((List.range X.length).map (fun i => (X.getD i dx, y.getD i dy))) :=
      hperm.map _
    rw [range_map_getD_zip dx dy X y hlen] at h1
    exact h1

/-- Witness for `shuffle_spec` with the permutation `[2, 0, 1]`. -/
theorem shuffle_spec_witness :
    (shuffle 0 0 [2, 0, 1] [5, 6, 7] [50, 60, 70]).1.length = 3 ∧
    (shuffle 0 0 [2, 0, 1] [5, 6, 7] [50, 60, 70]).2.length = 3 ∧
    ((shuffle 0 0 [2, 0, 1] [5, 6, 7] [50, 60, 70]).1.zip
      (shuffle 0 0 [2, 0, 1] [5, 6, 7] [50, 60, 70]).2).Perm
      ([5, 6, 7].zip [50, 60, 70]) :=
  shuffle_spec 0 0 [2, 0, 1] [5, 6, 7] [50, 60, 70] (by decide) (by decide)

/-! ### C7: vectorize_sequences -/

lemma setOnes_length (row : List Int) (idxs : List Nat) :
    (setOnes row idxs).length = row.length := by
  induction idxs generalizing row with
  | nil => rfl
  | cons a t ih =>
    unfold setOnes at ih ⊢
    rw [List.foldl_cons, ih, List.length_set]

lemma setOnes_getD (row : List Int) (idxs : List Nat) (j : Nat)
    (hj : j < row.length) :
    (setOnes row idxs).getD j 0 = if j ∈ idxs then 1 else row.getD j 0 := by
  induction idxs generalizing row with
  | nil => simp [setOnes]
  | cons a t ih =>
    unfold setOnes at ih ⊢
    rw [List.foldl_cons]
    rw [ih (row.set a 1) (by rw [List.length_set]; exact hj)]
    by_cases hmem : j ∈ t
    · rw [if_pos hmem, if_pos (List.mem_cons_of_mem a hmem)]
    · by_cases hja : j = a
      · subst hja
        have hone : (row.set j 1).getD j 0 = 1 := by
          rw [List.getD_eq_getElem?_getD, List.getElem?_set_self]
          · rfl
          · exact hj
        rw [if_neg hmem, hone, if_pos (List.mem_cons_self j t)]
      · have hkeep : (row.set a 1).getD j 0 = row.getD j 0 := by
          rw [List.getD_eq_getElem?_getD, List.getElem?_set_ne (fun h => hja h.symm),
            ← List.getD_eq_getElem?_getD]
        rw [if_neg hmem, hkeep, if_neg (by simp [hja, hmem])]

/-- C7: `vectorize_sequences(sequences, dimension)` has one row per
sequence, each of length `dimension`, and entry `(i, j)` is `1` exactly
when index `j` occurs in `sequences[i]`, `0` otherwise. -/
theorem vectorize_sequences_spec (seqs : List (List Nat)) (dim : Nat)
    (hidx : ∀ s ∈ seqs, ∀ j ∈ s, j < dim) :
    (vectorize_sequences seqs dim).length = seqs.length ∧
    ∀ i, i < seqs.length →
      ((vectorize_sequences seqs dim).getD i []).length = dim ∧
      ∀ j, j < dim →
        ((vectorize_sequences seqs dim).getD i []).getD j 0 =
          if j ∈ seqs.getD i [] then 1 else 0 := by
  constructor
  · simp [vectorize_sequences]
  · intro i hi
    have hrow : (vectorize_sequences seqs dim).getD i [] =
        setOnes (List.replicate dim 0) (seqs.getD i []) := by
      unfold vectorize_sequences
      exact getD_map_lt _ [] [] hi
    constructor
    · rw [hrow, setOnes_length, List.length_replicate]
    · intro j hj
      rw [hrow, setOnes_getD _ _ j (by rw [List.length_replicate]; exact hj)]
      by_cases hmem : j ∈ seqs.getD i []
      · simp [hmem]
      · simp [hmem, getD_replicate (0 : Int) 0 hj]

/-- Witness for `vectorize_sequences_spec` at two short sequences. -/
theorem vectorize_sequences_spec_witness :
    (vectorize_sequences [[0, 2], [1]] 3).length = 2 ∧
    ((vectorize_sequences [[0, 2], [1]] 3).getD 0 []).getD 2 0 = 1 ∧
    ((vectorize_sequences [[0, 2], [1]] 3).getD 0 []).getD 1 0 = 0 := by
  have h := vectorize_sequences_spec [[0, 2], [1]] 3 (by decide)
  refine ⟨h.1, ?_, ?_⟩
  · rw [(h.2 0 (by decide)).2 2 (by decide)]
    decide
  · rw [(h.2 0 (by decide)).2 1 (by decide)]
    decide

/-! ### C2: pad_img -/

lemma pad_img2_eq (img : Mat) (kernel : Mat) :
    pad_img2 img kernel =
      List.replicate ((kernel.length - 1) / 2)
          (List.replicate (cols2 img + 2 * ((cols2 kernel - 1) / 2)) 0)
        ++ (img.map (fun r => List.replicate ((cols2 kernel - 1) / 2) 0
              ++ (r ++ List.replicate ((cols2 kernel - 1) / 2) 0))
          ++ List.replicate ((kernel.length - 1) / 2)
            (List.replicate (cols2 img + 2 * ((cols2 kernel - 1) / 2)) 0)) := rfl

lemma pad_img3_eq (img : Img3) (kernel : Mat) :
    pad_img3 img kernel =
      List.replicate ((kernel.length - 1) / 2)
          (List.replicate (cols3 img + 2 * ((cols2 kernel - 1) / 2))
            (List.replicate (chans img) 0))
        ++ (img.map (fun r =>
              List.replicate ((cols2 kernel - 1) / 2) (List.replicate (chans img) 0)
                ++ (r ++ List.replicate ((cols2 kernel - 1) / 2) (List.replicate (chans img) 0)))
          ++ List.replicate ((kernel.length - 1) / 2)
            (List.replicate (cols3 img + 2 * ((cols2 kernel - 1) / 2))
              (List.replicate (chans img) 0))) := rfl

lemma pad_img3_length (img : Img3) (kernel : Mat) :
    (pad_img3 img kernel).length = img.length + 2 * ((kernel.length - 1) / 2) := by
  rw [pad_img3_eq]
  simp
  omega

lemma pad_img2_length (img : Mat) (kernel : Mat) :
    (pad_img2 img kernel).length = img.length + 2 * ((kernel.length - 1) / 2) := by
  rw [pad_img2_eq]
  simp
  omega

lemma pad_img3_row (img : Img3) (kernel : Mat) {i : Nat} (hi : i < img.length) :
    (pad_img3 img kernel).getD (i + (kernel.length - 1) / 2) [] =
      List.replicate ((cols2 kernel - 1) / 2) (List.replicate (chans img) 0)
        ++ (img.getD i []
          ++ List.replicate ((cols2 kernel - 1) / 2) (List.replicate (chans img) 0)) := by
  rw [pad_img3_eq]
  rw [List.getD_append_right _ _ [] _ (by simp)]
  rw [List.length_replicate]
  have hidx : i + (kernel.length - 1) / 2 - (kernel.length - 1) / 2 = i := by omega
  rw [hidx]
  rw [List.getD_append _ _ [] _ (by simpa using hi)]
  exact getD_map_lt _ [] [] hi

lemma pad_img2_row (img : Mat) (kernel : Mat) {i : Nat} (hi : i < img.length) :
    (pad_img2 img kernel).getD (i + (kernel.length - 1) / 2) [] =
      List.replicate ((cols2 kernel - 1) / 2) 0
        ++ (img.getD i [] ++ List.replicate ((cols2 kernel - 1) / 2) 0) := by
  rw [pad_img2_eq]
  rw [List.getD_append_right _ _ [] _ (by simp)]
  rw [List.length_replicate]
  have hidx : i + (kernel.length - 1) / 2 - (kernel.length - 1) / 2 = i := by omega
  rw [hidx]
  rw [List.getD_append _ _ [] _ (by simpa using hi)]
  exact getD_map_lt _ [] [] hi

lemma getD_pad_sides {α : Type} (z : α) (pw : Nat) (r : List α) (d : α) {j : Nat}
    (hj : j < r.length) :
    (List.replicate pw z ++ (r ++ List.replicate pw z)).getD (j + pw) d = r.getD j d := by
  rw [List.getD_append_right _ _ d _ (by simp)]
  rw [List.length_replicate]
  have hidx : j + pw - pw = j := by omega
  rw [hidx]
  exact List.getD_append _ _ d _ hj

lemma pad_rows_top {α : Type} (ph : Nat) (z : α) (M : List α) (d : α) {i : Nat}
    (hi : i < ph) :
    (List.replicate ph z ++ (M ++ List.replicate ph z)).getD i d = z := by
  rw [List.getD_append _ _ d _ (by simpa using hi)]
  exact getD_replicate z d hi

lemma pad_rows_bottom {α : Type} (ph : Nat) (z : α) (M : List α) (d : α) {i : Nat}
    (h1 : ph + M.length ≤ i) (h2 : i < ph + M.length + ph) :
    (List.replicate ph z ++ (M ++ List.replicate ph z)).getD i d = z := by
  rw [List.getD_append_right _ _ d _ (by rw [List.length_replicate]; omega)]
  rw [List.length_replicate]
  rw [List.getD_append_right _ _ d _ (by omega)]
  exact getD_replicate z d (by omega)

/-- C2: `pad_img` adds exactly `(kh - 1) / 2` rows of zeros above and below
and `(kw - 1) / 2` columns of zeros left and right (kernel height for rows,
kernel width for columns), never pads the channel dimension, and every
original pixel value reappears unchanged at its shifted position — for the
3-D branch and the 2-D branch alike: each added top/bottom row is a row of
zero pixels, and each interior row is the original row with zero pixels on
both sides. -/
theorem pad_img_spec :
    (∀ (img : Img3) (kernel : Mat), WF3 img →
      (pad_img3 img kernel).length = img.length + 2 * ((kernel.length - 1) / 2) ∧
      (∀ r ∈ pad_img3 img kernel,
        r.length = cols3 img + 2 * ((cols2 kernel - 1) / 2)) ∧
      (∀ r ∈ pad_img3 img kernel, ∀ p ∈ r, p.length = chans img) ∧
      (∀ i j k, i < img.length → j < cols3 img →
        get3 (pad_img3 img kernel)
            (i + (kernel.length - 1) / 2) (j + (cols2 kernel - 1) / 2) k =
          get3 img i j k) ∧
      (∀ i, i < (kernel.length - 1) / 2 →
        (pad_img3 img kernel).getD i [] =
          List.replicate (cols3 img + 2 * ((cols2 kernel - 1) / 2))
            (List.replicate (chans img) 0)) ∧
      (∀ i, (kernel.length - 1) / 2 + img.length ≤ i →
        i < (pad_img3 img kernel).length →
        (pad_img3 img kernel).getD i [] =
          List.replicate (cols3 img + 2 * ((cols2 kernel - 1) / 2))
            (List.replicate (chans img) 0)) ∧
      (∀ i, i < img.length →
        (pad_img3 img kernel).getD (i + (kernel.length - 1) / 2) [] =
          List.replicate ((cols2 kernel - 1) / 2) (List.replicate (chans img) 0)
            ++ (img.getD i []
              ++ List.replicate ((cols2 kernel - 1) / 2)
                (List.replicate (chans img) 0)))) ∧
    (∀ (img : Mat) (kernel : Mat), WF2 img →
      (pad_img2 img kernel).length = img.length + 2 * ((kernel.length - 1) / 2) ∧
      (∀ r ∈ pad_img2 img kernel,
        r.length = cols2 img + 2 * ((cols2 kernel - 1) / 2)) ∧
      (∀ i j, i < img.length → j < cols2 img →
        get2 (pad_img2 img kernel)
            (i + (kernel.length - 1) / 2) (j + (cols2 kernel - 1) / 2) =
          get2 img i j) ∧
      (∀ i, i < (kernel.length - 1) / 2 →
        (pad_img2 img kernel).getD i [] =
          List.replicate (cols2 img + 2 * ((cols2 kernel - 1) / 2)) 0) ∧
      (∀ i, (kernel.length - 1) / 2 + img.length ≤ i →
        i < (pad_img2 img kernel).length →
        (pad_img2 img kernel).getD i [] =
          List.replicate (cols2 img + 2 * ((cols2 kernel - 1) / 2)) 0) ∧
      (∀ i, i < img.length →
        (pad_img2 img kernel).getD (i + (kernel.length - 1) / 2) [] =
          List.replicate ((cols2 kernel - 1) / 2) 0
            ++ (img.getD i [] ++ List.replicate ((cols2 kernel - 1) / 2) 0))) := by
  constructor
  · intro img kernel hwf
    refine ⟨pad_img3_length img kernel, ?_, ?_, ?_, ?_, ?_, ?_⟩
    · intro r hr
      rw [pad_img3_eq] at hr
      rcases List.mem_append.mp hr with h | h
      · rw [List.eq_of_mem_replicate h]
        simp
      · rcases List.mem_append.mp h with h | h
        · rcases List.mem_map.mp h with ⟨r₀, hr₀, rfl⟩
          simp only [List.length_append, List.length_replicate, hwf.1 r₀ hr₀]
          omega
        · rw [List.eq_of_mem_replicate h]
          simp
    · intro r hr p hp
      rw [pad_img3_eq] at hr
      rcases List.mem_append.mp hr with h | h
      · rw [List.eq_of_mem_replicate h] at hp
        rw [List.eq_of_mem_replicate hp]
        simp
      · rcases List.mem_append.mp h with h | h
        · rcases List.mem_map.mp h with ⟨r₀, hr₀, rfl⟩
          rcases List.mem_append.mp hp with h' | h'
          · rw [List.eq_of_mem_replicate h']
            simp
          · rcases List.mem_append.mp h' with h'' | h''
            · exact hwf.2 r₀ hr₀ p h''
            · rw [List.eq_of_mem_replicate h'']
              simp
        · rw [List.eq_of_mem_replicate h] at hp
          rw [List.eq_of_mem_replicate hp]
          simp
    · intro i j k hi hj
      unfold get3
      rw [pad_img3_row img kernel hi]
      have hjr : j < (img.getD i []).length := by
        rw [hwf.1 (img.getD i []) (getD_mem_of_lt img [] hi)]
        exact hj
      rw [getD_pad_sides _ _ _ [] hjr]
    · intro i hi
      rw [pad_img3_eq]
      exact pad_rows_top _ _ _ [] hi
    · intro i h1 h2
      rw [pad_img3_length] at h2
      rw [pad_img3_eq]
      refine pad_rows_bottom _ _ _ [] ?_ ?_
      · rw [List.length_map]
        omega
      · rw [List.length_map]
        omega
    · intro i hi
      exact pad_img3_row img kernel hi
  · intro img kernel hwf
    refine ⟨pad_img2_length img kernel, ?_, ?_, ?_, ?_, ?_⟩
    · intro r hr
      rw [pad_img2_eq] at hr
      rcases List.mem_append.mp hr with h | h
      · rw [List.eq_of_mem_replicate h]
        simp
      · rcases List.mem_append.mp h with h | h
        · rcases List.mem_map.mp h with ⟨r₀, hr₀, rfl⟩
          simp only [List.length_append, List.length_replicate, hwf r₀ hr₀]
          omega
        · rw [List.eq_of_mem_replicate h]
          simp
    · intro i j hi hj
      unfold get2
      rw [pad_img2_row img kernel hi]
      have hjr : j < (img.getD i []).length := by
        rw [hwf (img.getD i []) (getD_mem_of_lt img [] hi)]
        exact hj
      rw [getD_pad_sides _ _ _ 0 hjr]
    · intro i hi
      rw [pad_img2_eq]
      exact pad_rows_top _ _ _ [] hi
    · intro i h1 h2
      rw [pad_img2_length] at h2
      rw [pad_img2_eq]
      refine pad_rows_bottom _ _ _ [] ?_ ?_
      · rw [List.length_map]
        omega
      · rw [List.length_map]
        omega
    · intro i hi
      exact pad_img2_row img kernel hi

/-- Witness for `pad_img_spec`: a 2 × 2 image (one- and zero-channel views)
padded by the 3 × 3 Sharpen kernel, checking the zero border rows and the
zero side columns concretely. -/
theorem pad_img_spec_witness :
    (pad_img3 [[[1], [2]], [[3], [4]]] sharpenKernel).length = 4 ∧
    get3 (pad_img3 [[[1], [2]], [[3], [4]]] sharpenKernel) 2 2 0 = 4 ∧
    (pad_img3 [[[1], [2]], [[3], [4]]] sharpenKernel).getD 0 [] =
      List.replicate 4 (List.replicate 1 0) ∧
    (pad_img3 [[[1], [2]], [[3], [4]]] sharpenKernel).getD 3 [] =
      List.replicate 4 (List.replicate 1 0) ∧
    (pad_img3 [[[1], [2]], [[3], [4]]] sharpenKernel).getD 1 [] =
      [[0], [1], [2], [0]] ∧
    (pad_img2 [[1, 2], [3, 4]] sharpenKernel).length = 4 ∧
    get2 (pad_img2 [[1, 2], [3, 4]] sharpenKernel) 2 2 = 4 ∧
    (pad_img2 [[1, 2], [3, 4]] sharpenKernel).getD 0 [] = List.replicate 4 0 ∧
    (pad_img2 [[1, 2], [3, 4]] sharpenKernel).getD 3 [] = List.replicate 4 0 ∧
    (pad_img2 [[1, 2], [3, 4]] sharpenKernel).getD 1 [] = [0, 1, 2, 0] := by
  have h3 := pad_img_spec.1 [[[1], [2]], [[3], [4]]] sharpenKernel (by decide)
  have h2 := pad_img_spec.2 [[1, 2], [3, 4]] sharpenKernel (by decide)
  refine ⟨h3.1, ?_, ?_, ?_, ?_, h2.1, ?_, ?_, ?_, ?_⟩
  · have := h3.2.2.2.1 1 1 0 (by decide) (by decide)
    simpa using this
  · exact h3.2.2.2.2.1 0 (by decide)
  · exact h3.2.2.2.2.2.1 3 (by decide) (by decide)
  · exact h3.2.2.2.2.2.2 0 (by decide)
  · have := h2.2.2.1 1 1 (by decide) (by decide)
    simpa using this
  · exact h2.2.2.2.1 0 (by decide)
  · exact h2.2.2.2.2.1 3 (by decide) (by decide)
  · exact h2.2.2.2.2.2 0 (by decide)

/-! ### convolve2D: indexing the assembled output -/

lemma getD_map_map_range {α β : Type} (f : Nat → α) (g : α → β) {n i : Nat} (d : β)
    (h : i < n) :
    (((List.range n).map f).map g).getD i d = g (f i) := by
  rw [List.map_map]
  exact getD_map_range _ d h

lemma convolve2D_eq (img : Img3) (kernel : Mat) :
    convolve2D img kernel =
      ((List.range (outH (pad_img3 img kernel) kernel)).map (fun i =>
        (List.range (outW (pad_img3 img kernel) kernel)).map (fun j =>
          (List.range (chans (pad_img3 img kernel))).map (fun k =>
            windowSum (pad_img3 img kernel) kernel i j k)))).map
        (fun r => r.map (fun px => px.map (fun x => uint8cast (npMaximum0 x)))) := rfl

lemma convolve2D_length (img : Img3) (kernel : Mat) :
    (convolve2D img kernel).length = outH (pad_img3 img kernel) kernel := by
  rw [convolve2D_eq]
  simp

lemma convolve2D_row (img : Img3) (kernel : Mat) {i : Nat}
    (hi : i < outH (pad_img3 img kernel) kernel) :
    (convolve2D img kernel).getD i [] =
      ((List.range (outW (pad_img3 img kernel) kernel)).map (fun j =>
        (List.range (chans (pad_img3 img kernel))).map (fun k =>
          windowSum (pad_img3 img kernel) kernel i j k))).map
        (fun px => px.map (fun x => uint8cast (npMaximum0 x))) := by
  rw [convolve2D_eq]
  exact getD_map_map_range _ _ [] hi

lemma convolve2D_row_length (img : Img3) (kernel : Mat) {i : Nat}
    (hi : i < outH (pad_img3 img kernel) kernel) :
    ((convolve2D img kernel).getD i []).length =
      outW (pad_img3 img kernel) kernel := by
  rw [convolve2D_row img kernel hi]
  simp

lemma convolve2D_pix (img : Img3) (kernel : Mat) {i j : Nat}
    (hi : i < outH (pad_img3 img kernel) kernel)
    (hj : j < outW (pad_img3 img kernel) kernel) :
    ((convolve2D img kernel).getD i []).getD j [] =
      ((List.range (chans (pad_img3 img kernel))).map (fun k =>
        windowSum (pad_img3 img kernel) kernel i j k)).map
        (fun x => uint8cast (npMaximum0 x)) := by
  rw [convolve2D_row img kernel hi]
  exact getD_map_map_range _ _ [] hj

lemma convolve2D_getD (img : Img3) (kernel : Mat) {i j k : Nat}
    (hi : i < outH (pad_img3 img kernel) kernel)
    (hj : j < outW (pad_img3 img kernel) kernel)
    (hk : k < chans (pad_img3 img kernel)) :
    get3 (convolve2D img kernel) i j k =
      uint8cast (npMaximum0 (windowSum (pad_img3 img kernel) kernel i j k)) := by
  unfold get3
  rw [convolve2D_pix img kernel hi hj]
  exact getD_map_map_range _ _ 0 hk

lemma convolve2D_gs_getD (img : Mat) (kernel : Mat) {i j : Nat}
    (hi : i < outH (pad_img3 (expandDims2 img) kernel) kernel)
    (hj : j < outW (pad_img3 (expandDims2 img) kernel) kernel) :
    get2 (convolve2D_gs img kernel) i j =
      get3 (convolve2D (expandDims2 img) kernel) i j 0 := by
  unfold get2 convolve2D_gs get3
  rw [getD_map_lt _ [] [] (by rw [convolve2D_length]; exact hi)]
  rw [getD_map_lt _ [] 0 (by rw [convolve2D_row_length _ _ hi]; exact hj)]

/-! ### C1: convolve2D computes clamped, 8-bit-cast window sums -/

/-- C1: for a 3-D image and for a 2-D grayscale image alike, `convolve2D`
zero-pads the input and the output value at position `(i, j)`, channel `k`,
is the elementwise product-sum of the kernel against the window of the
padded image starting at `(i, j)` in channel `k`, clamped at zero and cast
to an 8-bit value. -/
theorem convolve2D_spec :
    (∀ (img : Img3) (kernel : Mat) (i j k : Nat),
      i < outH (pad_img3 img kernel) kernel →
      j < outW (pad_img3 img kernel) kernel →
      k < chans (pad_img3 img kernel) →
      get3 (convolve2D img kernel) i j k =
        uint8cast (npMaximum0 (windowSum (pad_img3 img kernel) kernel i j k))) ∧
    (∀ (img : Mat) (kernel : Mat) (i j : Nat),
      i < outH (pad_img3 (expandDims2 img) kernel) kernel →
      j < outW (pad_img3 (expandDims2 img) kernel) kernel →
      0 < chans (pad_img3 (expandDims2 img) kernel) →
      get2 (convolve2D_gs img kernel) i j =
        uint8cast (npMaximum0
          (windowSum (pad_img3 (expandDims2 img) kernel) kernel i j 0))) := by
  constructor
  · intro img kernel i j k hi hj hk
    exact convolve2D_getD img kernel hi hj hk
  · intro img kernel i j hi hj hc
    rw [convolve2D_gs_getD img kernel hi hj]
    exact convolve2D_getD (expandDims2 img) kernel hi hj hc

/-- Witness for `convolve2D_spec`: a 2 × 2 image (3-D and grayscale forms)
with the Sharpen kernel. -/
theorem convolve2D_spec_witness :
    get3 (convolve2D [[[1], [2]], [[3], [4]]] sharpenKernel) 0 0 0 =
      uint8cast (npMaximum0
        (windowSum (pad_img3 [[[1], [2]], [[3], [4]]] sharpenKernel)
          sharpenKernel 0 0 0)) ∧
    get2 (convolve2D_gs [[1, 2], [3, 4]] sharpenKernel) 1 1 =
      uint8cast (npMaximum0
        (windowSum (pad_img3 (expandDims2 [[1, 2], [3, 4]]) sharpenKernel)
          sharpenKernel 1 1 0)) :=
  ⟨convolve2D_spec.1 [[[1], [2]], [[3], [4]]] sharpenKernel 0 0 0
      (by decide) (by decide) (by decide),
   convolve2D_spec.2 [[1, 2], [3, 4]] sharpenKernel 1 1
      (by decide) (by decide) (by decide)⟩

/-! ### C9: odd kernels preserve the spatial shape -/

lemma cols3_pad (img : Img3) (kernel : Mat) (hne : img ≠ []) :
    cols3 (pad_img3 img kernel) = cols3 img + 2 * ((cols2 kernel - 1) / 2) := by
  obtain ⟨r₀, t, rfl⟩ := List.exists_cons_of_ne_nil hne
  rw [pad_img3_eq]
  rcases Nat.eq_zero_or_pos ((kernel.length - 1) / 2) with hph | hph
  · rw [hph]
    simp [cols3]
    omega
  · obtain ⟨m, hm⟩ : ∃ m, (kernel.length - 1) / 2 = m + 1 :=
      ⟨(kernel.length - 1) / 2 - 1, by omega⟩
    rw [hm]
    simp [cols3, List.replicate_succ]

lemma outH_pad_odd (img : Img3) (kernel : Mat) (a : Nat)
    (hk : kernel.length = 2 * a + 1) :
    outH (pad_img3 img kernel) kernel = img.length := by
  unfold outH
  rw [pad_img3_length, hk]
  have ha : (2 * a + 1 - 1) / 2 = a := by omega
  rw [ha]
  omega

lemma outW_pad_odd (img : Img3) (kernel : Mat) (b : Nat) (hne : img ≠ [])
    (hk : cols2 kernel = 2 * b + 1) :
    outW (pad_img3 img kernel) kernel = cols3 img := by
  unfold outW
  rw [cols3_pad img kernel hne, hk]
  have hb : (2 * b + 1 - 1) / 2 = b := by omega
  rw [hb]
  omega

lemma chans_pad (img : Img3) (kernel : Mat) (hne : img ≠ []) :
    chans (pad_img3 img kernel) = chans img := by
  obtain ⟨r₀, t, rfl⟩ := List.exists_cons_of_ne_nil hne
  rw [pad_img3_eq]
  rcases Nat.eq_zero_or_pos ((kernel.length - 1) / 2) with hph | hph
  · rw [hph]
    rcases Nat.eq_zero_or_pos ((cols2 kernel - 1) / 2) with hpw | hpw
    · rw [hpw]
      simp [chans]
    · obtain ⟨m, hm⟩ : ∃ m, (cols2 kernel - 1) / 2 = m + 1 :=
        ⟨(cols2 kernel - 1) / 2 - 1, by omega⟩
      rw [hm]
      simp [chans, List.replicate_succ]
  · obtain ⟨m, hm⟩ : ∃ m, (kernel.length - 1) / 2 = m + 1 :=
      ⟨(kernel.length - 1) / 2 - 1, by omega⟩
    rw [hm]
    rcases Nat.eq_zero_or_pos (cols3 (r₀ :: t) + 2 * ((cols2 kernel - 1) / 2))
      with hw | hw
    · have hr₀ : r₀ = [] := by
        have : cols3 (r₀ :: t) = 0 := by omega
        simpa [cols3] using this
      subst hr₀
      rw [hw]
      simp [chans, List.replicate_succ]
    · obtain ⟨w, hwm⟩ : ∃ w, cols3 (r₀ :: t) + 2 * ((cols2 kernel - 1) / 2) = w + 1 :=
        ⟨cols3 (r₀ :: t) + 2 * ((cols2 kernel - 1) / 2) - 1, by omega⟩
      rw [hwm]
      simp [chans, List.replicate_succ]

lemma cols3_expandDims (img : Mat) : cols3 (expandDims2 img) = cols2 img := by
  cases img with
  | nil => rfl
  | cons r t => simp [cols3, cols2, expandDims2]

lemma convolve2D_mem_row (img : Img3) (kernel : Mat) :
    ∀ r ∈ convolve2D img kernel, r.length = outW (pad_img3 img kernel) kernel := by
  intro r hr
  rw [convolve2D_eq] at hr
  rcases List.mem_map.mp hr with ⟨r', hr', rfl⟩
  rcases List.mem_map.mp hr' with ⟨i, _, rfl⟩
  simp

lemma convolve2D_mem_pix (img : Img3) (kernel : Mat) :
    ∀ r ∈ convolve2D img kernel, ∀ px ∈ r,
      px.length = chans (pad_img3 img kernel) := by
  intro r hr px hpx
  rw [convolve2D_eq] at hr
  rcases List.mem_map.mp hr with ⟨r', hr', rfl⟩
  rcases List.mem_map.mp hr' with ⟨i, _, rfl⟩
  rcases List.mem_map.mp hpx with ⟨px', hpx', rfl⟩
  rcases List.mem_map.mp hpx' with ⟨j, _, rfl⟩
  simp

/-- C9: with a kernel of odd height and odd width, `convolve2D` preserves
the spatial shape: a grayscale image keeps its height and width, and a 3-D
image also keeps its channel count. -/
theorem convolve2D_shape :
    (∀ (img : Mat) (kernel : Mat) (a b : Nat), img ≠ [] →
      kernel.length = 2 * a + 1 → cols2 kernel = 2 * b + 1 →
      (convolve2D_gs img kernel).length = img.length ∧
      ∀ r ∈ convolve2D_gs img kernel, r.length = cols2 img) ∧
    (∀ (img : Img3) (kernel : Mat) (a b : Nat), img ≠ [] →
      kernel.length = 2 * a + 1 → cols2 kernel = 2 * b + 1 →
      (convolve2D img kernel).length = img.length ∧
      (∀ r ∈ convolve2D img kernel, r.length = cols3 img) ∧
      (∀ r ∈ convolve2D img kernel, ∀ px ∈ r, px.length = chans img)) := by
  constructor
  · intro img kernel a b hne hka hkb
    have hEne : expandDims2 img ≠ [] := by
      unfold expandDims2
      simpa using hne
    constructor
    · unfold convolve2D_gs
      rw [List.length_map, convolve2D_length, outH_pad_odd _ _ a hka]
      simp [expandDims2]
    · intro r hr
      unfold convolve2D_gs at hr
      rcases List.mem_map.mp hr with ⟨r', hr', rfl⟩
      rw [List.length_map, convolve2D_mem_row _ _ r' hr',
        outW_pad_odd _ _ b hEne hkb, cols3_expandDims]
  · intro img kernel a b hne hka hkb
    refine ⟨?_, ?_, ?_⟩
    · rw [convolve2D_length, outH_pad_odd _ _ a hka]
    · intro r hr
      rw [convolve2D_mem_row _ _ r hr, outW_pad_odd _ _ b hne hkb]
    · intro r hr px hpx
      rw [convolve2D_mem_pix _ _ r hr px hpx, chans_pad _ _ hne]

/-- Witness for `convolve2D_shape`: the 2 × 2 image of
`convolve2D_spec_witness` keeps its 2 × 2 (× 1) shape under the 3 × 3
Sharpen kernel. -/
theorem convolve2D_shape_witness :
    ((convolve2D_gs [[1, 2], [3, 4]] sharpenKernel).length = 2 ∧
      ∀ r ∈ convolve2D_gs [[1, 2], [3, 4]] sharpenKernel, r.length = 2) ∧
    ((convolve2D [[[1], [2]], [[3], [4]]] sharpenKernel).length = 2 ∧
      (∀ r ∈ convolve2D [[[1], [2]], [[3], [4]]] sharpenKernel, r.length = 2) ∧
      (∀ r ∈ convolve2D [[[1], [2]], [[3], [4]]] sharpenKernel,
        ∀ px ∈ r, px.length = 1)) :=
  ⟨convolve2D_shape.1 [[1, 2], [3, 4]] sharpenKernel 1 1
      (by decide) (by decide) (by decide),
   convolve2D_shape.2 [[[1], [2]], [[3], [4]]] sharpenKernel 1 1
      (by decide) (by decide) (by decide)⟩

/-! ### C10: the 8-bit cast wraps around instead of saturating -/

/-- C10: the stored value is always `max(0, window sum) mod 256` — a modular
reduction, not a saturation — and concretely the Sharpen kernel from
`get_kernels()` on a grayscale image whose single pixel is `52` yields the
clamped product-sum `260 > 255` yet stores `4`, not `255`. -/
theorem uint8cast_wraps :
    (∀ (img : Img3) (kernel : Mat) (i j k : Nat),
      i < outH (pad_img3 img kernel) kernel →
      j < outW (pad_img3 img kernel) kernel →
      k < chans (pad_img3 img kernel) →
      get3 (convolve2D img kernel) i j k =
        max (windowSum (pad_img3 img kernel) kernel i j k) 0 % 256) ∧
    convolve2D_gs [[52]] sharpenKernel = [[4]] ∧
    npMaximum0 (windowSum (pad_img3 (expandDims2 [[52]]) sharpenKernel)
      sharpenKernel 0 0 0) = 260 ∧
    (255 : Int) < 260 ∧ (4 : Int) ≠ 255 := by
  refine ⟨?_, by decide, by decide, by decide, by decide⟩
  intro img kernel i j k hi hj hk
  exact convolve2D_getD img kernel hi hj hk

/-- Witness for `uint8cast_wraps` at the single-pixel image `[[[52]]]`. -/
theorem uint8cast_wraps_witness :
    get3 (convolve2D [[[52]]] sharpenKernel) 0 0 0 =
      max (windowSum (pad_img3 [[[52]]] sharpenKernel) sharpenKernel 0 0 0) 0 % 256 :=
  uint8cast_wraps.1 [[[52]]] sharpenKernel 0 0 0 (by decide) (by decide) (by decide)

/-! ### C3: get_data_from_dir -/

lemma classOffset_zero {α : Type} (dirs : List (String × List α)) :
    classOffset dirs 0 = 0 := rfl

lemma classOffset_succ {α : Type} (d : String × List α) (t : List (String × List α))
    (j : Nat) :
    classOffset (d :: t) (j + 1) = d.2.length + classOffset t j := by
  unfold classOffset
  rw [List.take_succ_cons, List.map_cons, List.sum_cons]

lemma get_data_len {α : Type} (resize : α → α) (dirs : List (String × List α)) :
    ∀ n : Nat,
      ((List.enumFrom n dirs).flatMap (fun p => List.replicate p.2.2.length p.1)).length =
        (dirs.flatMap (fun d => d.2.map resize)).length := by
  induction dirs with
  | nil => intro n; rfl
  | cons d t ih =>
    intro n
    rw [List.enumFrom_cons, List.flatMap_cons, List.flatMap_cons, List.length_append,
      List.length_append, List.length_replicate, List.length_map, ih (n + 1)]

lemma labels_lt {α : Type} (dirs : List (String × List α)) :
    ∀ n : Nat,
      ∀ l ∈ (List.enumFrom n dirs).flatMap (fun p => List.replicate p.2.2.length p.1),
        l < n + dirs.length := by
  induction dirs with
  | nil =>
    intro n l hl
    cases hl
  | cons d t ih =>
    intro n l hl
    rw [List.enumFrom_cons, List.flatMap_cons] at hl
    rcases List.mem_append.mp hl with h | h
    · rw [List.eq_of_mem_replicate h, List.length_cons]
      omega
    · have := ih (n + 1) l h
      rw [List.length_cons]
      omega

lemma labels_block {α : Type} (dirs : List (String × List α)) :
    ∀ (n i : Nat), i < dirs.length →
      (((List.enumFrom n dirs).flatMap (fun p => List.replicate p.2.2.length p.1)).drop
          (classOffset dirs i)).take (dirs.getD i ("", [])).2.length =
        List.replicate (dirs.getD i ("", [])).2.length (n + i) := by
  induction dirs with
  | nil =>
    intro n i hi
    cases hi
  | cons d t ih =>
    intro n i hi
    rw [List.enumFrom_cons, List.flatMap_cons]
    cases i with
    | zero =>
      rw [classOffset_zero, List.drop_zero, List.getD_cons_zero, Nat.add_zero]
      exact List.take_left' (List.length_replicate _ _)
    | succ j =>
      have hj : j < t.length := by
        rw [List.length_cons] at hi
        omega
      rw [classOffset_succ, List.getD_cons_succ, ← List.drop_drop,
        List.drop_left' (List.length_replicate _ _)]
      have harith : n + (j + 1) = n + 1 + j := by omega
      rw [harith]
      exact ih (n + 1) j hj

lemma imgs_block {α : Type} (resize : α → α) (dirs : List (String × List α)) :
    ∀ i, i < dirs.length →
      ((dirs.flatMap (fun d => d.2.map resize)).drop (classOffset dirs i)).take
          (dirs.getD i ("", [])).2.length =
        (dirs.getD i ("", [])).2.map resize := by
  induction dirs with
  | nil =>
    intro i hi
    cases hi
  | cons d t ih =>
    intro i hi
    rw [List.flatMap_cons]
    cases i with
    | zero =>
      rw [classOffset_zero, List.drop_zero, List.getD_cons_zero]
      exact List.take_left' (List.length_map _ _)
    | succ j =>
      have hj : j < t.length := by
        rw [List.length_cons] at hi
        omega
      rw [classOffset_succ, List.getD_cons_succ, ← List.drop_drop,
        List.drop_left' (List.length_map _ _)]
      exact ih j hj

/-- C3: `get_data_from_dir` returns as many labels as images, the
subdirectory names in listing order, labels in `[0, number of classes)`,
and the images of the `i`-th listed subdirectory carry label `i`: at the
offset where class `i` starts, the label list holds a block of `i`s and the
image list holds exactly that subdirectory's (resized) images. -/
theorem get_data_from_dir_spec {α : Type} (resize : α → α)
    (dirs : List (String × List α)) :
    (get_data_from_dir resize dirs).2.1.length =
      (get_data_from_dir resize dirs).1.length ∧
    (get_data_from_dir resize dirs).2.2 = dirs.map (fun d => d.1) ∧
    (∀ l ∈ (get_data_from_dir resize dirs).2.1, l < dirs.length) ∧
    ∀ i, i < dirs.length →
      ((get_data_from_dir resize dirs).2.1.drop (classOffset dirs i)).take
          (dirs.getD i ("", [])).2.length =
        List.replicate (dirs.getD i ("", [])).2.length i ∧
      ((get_data_from_dir resize dirs).1.drop (classOffset dirs i)).take
          (dirs.getD i ("", [])).2.length =
        (dirs.getD i ("", [])).2.map resize := by
  have hlab : (get_data_from_dir resize dirs).2.1 =
      (List.enumFrom 0 dirs).flatMap (fun p => List.replicate p.2.2.length p.1) := rfl
  have himg : (get_data_from_dir resize dirs).1 =
      dirs.flatMap (fun d => d.2.map resize) := rfl
  rw [hlab, himg]
  refine ⟨get_data_len resize dirs 0, rfl, ?_, ?_⟩
  · intro l hl
    have := labels_lt dirs 0 l hl
    omega
  · intro i hi
    refine ⟨?_, imgs_block resize dirs i hi⟩
    have := labels_block dirs 0 i hi
    rw [Nat.zero_add] at this
    exact this

/-- Witness for `get_data_from_dir_spec` on a two-class listing. -/
theorem get_data_from_dir_spec_witness :
    (get_data_from_dir id [("cats", [1, 2, 3]), ("dogs", [4, 5])]).2.1.length =
      (get_data_from_dir id [("cats", [1, 2, 3]), ("dogs", [4, 5])]).1.length ∧
    (∀ l ∈ (get_data_from_dir id [("cats", [1, 2, 3]), ("dogs", [4, 5])]).2.1,
      l < 2) ∧
    ((get_data_from_dir id [("cats", [1, 2, 3]), ("dogs", [4, 5])]).2.1.drop 3).take 2 =
      [1, 1] ∧
    ((get_data_from_dir id [("cats", [1, 2, 3]), ("dogs", [4, 5])]).1.drop 3).take 2 =
      [4, 5] := by
  have h := get_data_from_dir_spec id [("cats", [1, 2, 3]), ("dogs", [4, 5])]
  exact ⟨h.1, fun l hl => h.2.2.1 l hl, (h.2.2.2 1 (by decide)).1,
    (h.2.2.2 1 (by decide)).2⟩

/-! ### C8: organize_series with one lag and one lead -/

lemma headD_eq_getD_zero {α : Type} (l : List α) (d : α) : l.headD d = l.getD 0 d := by
  cases l <;> rfl

lemma dfShift_getD (data : List (List ℚ)) (s : Int) {t : Nat} (ht : t < data.length) :
    (dfShift data s).getD t [] =
      if 0 ≤ (t : Int) - s ∧ (t : Int) - s < (data.length : Int) then
        (data.getD ((t : Int) - s).toNat []).map some
      else List.replicate (data.headD []).length none := by
  unfold dfShift
  exact getD_map_range _ [] ht

lemma dfShift_zero_row (data : List (List ℚ)) {t : Nat} (ht : t < data.length) :
    (dfShift data 0).getD t [] = (data.getD t []).map some := by
  rw [dfShift_getD data 0 ht]
  rw [if_pos (by constructor <;> omega)]
  have h2 : ((t : Int) - 0).toNat = t := by omega
  rw [h2]

lemma dfShift_one_zero (data : List (List ℚ)) (h : 0 < data.length) :
    (dfShift data 1).getD 0 [] = List.replicate (data.headD []).length none := by
  rw [dfShift_getD data 1 h]
  rw [if_neg (by omega)]

lemma dfShift_one_succ (data : List (List ℚ)) {j : Nat} (hj : j + 1 < data.length) :
    (dfShift data 1).getD (j + 1) [] = (data.getD j []).map some := by
  rw [dfShift_getD data 1 hj]
  rw [if_pos (by constructor <;> omega)]
  have h2 : (((j + 1 : Nat) : Int) - 1).toNat = j := by omega
  rw [h2]

lemma organize_series_one_one (data : List (List ℚ)) :
    organize_series data 1 1 true =
      (((List.range data.length).map (fun t =>
          (dfShift data 1).getD t [] ++ ((dfShift data 0).getD t [] ++ []))).filter
          (fun row => row.all (fun x => x.isSome)),
        (List.range (data.headD []).length).map (fun j => varName j 1) ++
          ((List.range (data.headD []).length).map (fun j => varName j 0) ++ [])) := rfl

/-- C8: on a rectangular numeric table with `n ≥ 1` rows and `v ≥ 1`
columns, `organize_series(data, 1, 1, dropnan=True)` returns exactly
`n - 1` rows of `2 v` entries: the row for time `t` holds the `v` values at
time `t - 1` followed by the `v` values at time `t`, the single
`NaN`-bearing row from the shift is dropped, and the column names are
`var j(t-1)` for each variable followed by `var j(t)`. -/
theorem organize_series_spec (data : List (List ℚ)) (v : Nat)
    (hv : 0 < v) (hn : 0 < data.length) (hrect : ∀ r ∈ data, r.length = v) :
    (organize_series data 1 1 true).1.length = data.length - 1 ∧
    (∀ r ∈ (organize_series data 1 1 true).1, r.length = 2 * v) ∧
    (organize_series data 1 1 true).1 =
      (List.range (data.length - 1)).map (fun t =>
        (data.getD t []).map some ++ (data.getD (t + 1) []).map some) ∧
    (organize_series data 1 1 true).2 =
      (List.range v).map (fun j => varName j 1) ++
        (List.range v).map (fun j => varName j 0) := by
  have hv0 : (data.headD []).length = v := by
    rw [headD_eq_getD_zero]
    exact hrect _ (getD_mem_of_lt data [] hn)
  obtain ⟨m, hm⟩ : ∃ m, data.length = m + 1 := ⟨data.length - 1, by omega⟩
  have hq0 : ¬ ((((dfShift data 1).getD 0 [] ++ ((dfShift data 0).getD 0 [] ++ [])).all
      (fun x => x.isSome)) = true) := by
    rw [dfShift_one_zero data hn, hv0]
    obtain ⟨k, hk⟩ : ∃ k, v = k + 1 := ⟨v - 1, by omega⟩
    rw [hk, List.replicate_succ]
    simp
  have hmain : (organize_series data 1 1 true).1 =
      (List.range (data.length - 1)).map (fun t =>
        (data.getD t []).map some ++ (data.getD (t + 1) []).map some) := by
    rw [organize_series_one_one]
    show ((List.range data.length).map (fun t =>
        (dfShift data 1).getD t [] ++ ((dfShift data 0).getD t [] ++ []))).filter
        (fun row => row.all (fun x => x.isSome)) =
      (List.range (data.length - 1)).map (fun t =>
        (data.getD t []).map some ++ (data.getD (t + 1) []).map some)
    rw [hm, List.range_succ_eq_map, List.map_cons,
      @List.filter_cons_of_neg _ (fun row : List (Option ℚ) => row.all (fun x => x.isSome))
        ((dfShift data 1).getD 0 [] ++ ((dfShift data 0).getD 0 [] ++ []))
        ((List.map Nat.succ (List.range m)).map (fun t =>
          (dfShift data 1).getD t [] ++ ((dfShift data 0).getD t [] ++ []))) hq0,
      List.map_map]
    have hself : ((List.range m).map
          ((fun t => (dfShift data 1).getD t [] ++ ((dfShift data 0).getD t [] ++ []))
            ∘ Nat.succ)).filter (fun row => row.all (fun x => x.isSome)) =
        (List.range m).map
          ((fun t => (dfShift data 1).getD t [] ++ ((dfShift data 0).getD t [] ++ []))
            ∘ Nat.succ) := by
      rw [List.filter_eq_self]
      intro row hrow
      rcases List.mem_map.mp hrow with ⟨t, htm, rfl⟩
      have ht : t + 1 < data.length := by
        rw [hm]
        have := List.mem_range.mp htm
        omega
      show ((dfShift data 1).getD (t + 1) [] ++
        ((dfShift data 0).getD (t + 1) [] ++ [])).all (fun x => x.isSome) = true
      rw [dfShift_one_succ data ht, dfShift_zero_row data ht]
      simp
    rw [hself]
    simp only [Nat.add_sub_cancel]
    refine List.map_congr_left ?_
    intro t htm
    have ht : t + 1 < data.length := by
      rw [hm]
      have := List.mem_range.mp htm
      omega
    show (dfShift data 1).getD (t + 1) [] ++ ((dfShift data 0).getD (t + 1) [] ++ []) =
      (data.getD t []).map some ++ (data.getD (t + 1) []).map some
    rw [dfShift_one_succ data ht, dfShift_zero_row data ht, List.append_nil]
  refine ⟨?_, ?_, hmain, ?_⟩
  · rw [hmain]
    simp
  · intro r hr
    rw [hmain] at hr
    rcases List.mem_map.mp hr with ⟨t, htm, rfl⟩
    have ht : t + 1 < data.length := by
      have := List.mem_range.mp htm
      omega
    rw [List.length_append, List.length_map, List.length_map,
      hrect _ (getD_mem_of_lt data [] (by omega)),
      hrect _ (getD_mem_of_lt data [] ht)]
    omega
  · rw [organize_series_one_one]
    show (List.range (data.headD []).length).map (fun j => varName j 1) ++
        ((List.range (data.headD []).length).map (fun j => varName j 0) ++ []) =
      (List.range v).map (fun j => varName j 1) ++
        (List.range v).map (fun j => varName j 0)
    rw [hv0, List.append_nil]

/-- Witness for `organize_series_spec` at a 3 × 2 table. -/
theorem organize_series_spec_witness :
    (organize_series [[1, 2], [3, 4], [5, 6]] 1 1 true).1.length = 2 ∧
    (organize_series [[1, 2], [3, 4], [5, 6]] 1 1 true).1 =
      [[some 1, some 2, some 3, some 4], [some 3, some 4, some 5, some 6]] ∧
    (organize_series [[1, 2], [3, 4], [5, 6]] 1 1 true).2 =
      ["var1(t-1)", "var2(t-1)", "var1(t)", "var2(t)"] := by
  have h := organize_series_spec [[1, 2], [3, 4], [5, 6]] 2 (by decide) (by decide)
    (by intro r hr; fin_cases hr <;> rfl)
  refine ⟨h.1, ?_, ?_⟩
  · rw [h.2.2.1]
    rfl
  · rw [h.2.2.2]
    rfl

end HandsOn
